import Mathlib

/-!
Verification of the concurrent recursive indexer in `src/dfs/src/index.rs`
(repository jonay2000/dfs).

The development shallowly embeds the indexer:

* `index_direntry`, `process_task`, `handle_db_message` and the body of the
  orchestrator's `select!` loop in `index` are translated into pure Lean
  functions.  Channel round trips are abstracted into explicit inputs and
  outputs: the oneshot reply awaited by `index_direntry` becomes an
  `Option Int` argument (`none` models a dropped reply sender), the stream of
  `next_entry` results of `fs::read_dir` becomes a
  `List (Except IOErr DirEntry)`, and everything a task sends on a channel
  (db messages, fatal errors, new tasks) is collected into the returned
  `TaskResult` record.
* The interleaving of counter updates (`queued`, `spawned`, `done`) between
  the dispatcher `do_index` and the spawned scan workers is modelled as a
  small-step transition system (`Counting` namespace below).
* A whole run over a finite symlink-free directory tree is modelled by a
  task-queue execution (`runQueue`) over an explicit tree type `FsNode`.
-/

deriving instance DecidableEq for Except

namespace Dfs

/-- An I/O error, abstracted to an error code.  Stands for `tokio::io::Error`. -/
structure IOErr where
  code : Nat
deriving DecidableEq, Repr

/-- An OS string (`OsStr`/`PathBuf`): `to_str` is `some s` exactly when the
underlying bytes are valid UTF-8, mirroring `OsStr::to_str : Option<&str>`. -/
structure OsString where
  to_str : Option String
deriving DecidableEq, Repr

/-- `NonFatalIndexError { path, error }` from index.rs lines 15-20. -/
structure NonFatalIndexError where
  path : OsString
  error : IOErr
deriving DecidableEq, Repr

/-- `IndexError` from index.rs lines 22-35.  The payloads of the `Sqlite` and
`GetRootDir` variants are abstracted to error codes. -/
inductive IndexError where
  | sqlite (code : Nat)
  | getRootDir (code : Nat)
  | utf8
  | getId
deriving DecidableEq, Repr

/-- `Task { path, parent_id }` from index.rs lines 38-42. -/
structure Task where
  path : OsString
  parent_id : Int
deriving DecidableEq, Repr

/-- A directory entry (`tokio::fs::DirEntry`) as interrogated by the code:
its file name, its full path, and whether `path.is_dir()` holds. -/
structure DirEntry where
  file_name : OsString
  path : OsString
  is_dir : Bool
deriving DecidableEq, Repr

/-- `DbMessage { resp, entry, parent_id }` from index.rs lines 130-135; the
oneshot reply sender is abstracted away (reply delivery is modelled at the
call site of `index_direntry`). -/
structure DbMessage where
  entry : DirEntry
  parent_id : Int
deriving DecidableEq, Repr

/-- `Inner::index_direntry` (index.rs lines 59-85) after sending the
`DbMessage`: the argument is the outcome of `resp_rx.await`
(`none` = the reply sender was dropped).  Returns the identifier the function
returns together with the fatal errors it sends on `fatal_errors_tx`:
on a dropped reply it sends `IndexError::GetId` and returns the sentinel `0`. -/
def index_direntry (reply : Option Int) : Int × List IndexError :=
  match reply with
  | some i => (i, [])
  | none => (0, [IndexError.getId])

/-- Everything observable about one `process_task` invocation: the
`DbMessage`s sent (entry together with the `parent_id` used), the fatal
errors sent, the tasks pushed onto `todo_queue_tx`, the number of
`queued.fetch_add(1)` calls, whether `done_first.store(true)` was executed,
and the function's return value. -/
structure TaskResult where
  dbMsgs : List (DirEntry × Int)
  fatals : List IndexError
  enqueued : List Task
  queuedInc : Nat
  doneFirstSet : Bool
  result : Except NonFatalIndexError Unit
deriving DecidableEq, Repr

/-- The `while let Some(entry) = non_fatal!(dir.next_entry().await)` loop of
`Inner::process_task` (index.rs lines 103-126).  The stream argument lists
the successive outcomes of `dir.next_entry()`: `.ok e` yields entry `e`,
`.error io` makes the `non_fatal!` macro return
`Err(NonFatalIndexError { path: task.path, error: io })` at that point, and
the end of the list is the clean `Ok(None)` end of the listing.  `reply k` is
the writer's reply for the `k`-th entry.  Only after the loop ends cleanly is
`done_first` stored when `task.parent_id == self.root_id` (lines 120-122). -/
def process_task_go (root_id : Int) (reply : Nat → Option Int) (task : Task) :
    Nat → List (Except IOErr DirEntry) → TaskResult
  | _, [] =>
    { dbMsgs := [], fatals := [], enqueued := [], queuedInc := 0,
      doneFirstSet := task.parent_id == root_id, result := Except.ok () }
  | _, Except.error io :: _ =>
    { dbMsgs := [], fatals := [], enqueued := [], queuedInc := 0,
      doneFirstSet := false,
      result := Except.error { path := task.path, error := io } }
  | k, Except.ok entry :: rest =>
    let sent := index_direntry (reply k)
    let r := process_task_go root_id reply task (k + 1) rest
    { dbMsgs := (entry, task.parent_id) :: r.dbMsgs,
      fatals := sent.2 ++ r.fatals,
      enqueued :=
        (if entry.is_dir then [{ path := entry.path, parent_id := sent.1 }] else [])
          ++ r.enqueued,
      queuedInc := (if entry.is_dir then 1 else 0) + r.queuedInc,
      doneFirstSet := r.doneFirstSet,
      result := r.result }

/-- `Inner::process_task` (index.rs lines 87-127).  The first argument of the
directory access is the outcome of `fs::read_dir(&task.path)`: on `Err(io)`
the `non_fatal!` macro returns immediately with a `NonFatalIndexError`
carrying the task's path, before any entry is visited. -/
def process_task (root_id : Int) (reply : Nat → Option Int)
    (rd : Except IOErr (List (Except IOErr DirEntry))) (task : Task) : TaskResult :=
  match rd with
  | Except.error io =>
    { dbMsgs := [], fatals := [], enqueued := [], queuedInc := 0,
      doneFirstSet := false,
      result := Except.error { path := task.path, error := io } }
  | Except.ok stream => process_task_go root_id reply task 0 stream

/-- What the closure spawned by `do_index` (index.rs lines 201-210) does once
the worker's `process_task` returns: push the error (if any) onto the shared
error collection, and increment `done` exactly once either way. -/
structure WorkerEffect where
  errorsAppended : List NonFatalIndexError
  doneInc : Nat
deriving DecidableEq, Repr

/-- The worker-completion bookkeeping of `do_index` (index.rs lines 202-207):
`Err(e)` is appended to `inner.errors`, then `inner.done.fetch_add(1)` runs
unconditionally. -/
def do_index_on_worker_done (r : Except NonFatalIndexError Unit) : WorkerEffect :=
  { errorsAppended := match r with | Except.error e => [e] | Except.ok _ => [],
    doneInc := 1 }

/-- One persisted row of the `files` table (schema of index.rs line 220):
generated id, `name`, `parent`, `dir` columns. -/
structure Row where
  id : Int
  name : String
  parent : Int
  dir : String
deriving DecidableEq, Repr

/-- The backing store visible to the writer: the rows of the `files` table
and the next rowid sqlite will generate (`last_insert_rowid` of the next
insert). -/
structure DbState where
  rows : List Row
  nextId : Int
deriving DecidableEq, Repr

/-- One `INSERT into files (name, parent, dir)` followed by
`last_insert_rowid()` and `commit` (index.rs lines 218-229). -/
def insertDb (db : DbState) (name : String) (parent : Int) (dir : String) :
    DbState × Int :=
  ({ rows := db.rows ++ [{ id := db.nextId, name := name, parent := parent, dir := dir }],
     nextId := db.nextId + 1 },
   db.nextId)

/-- `Indexer::handle_db_message` (index.rs lines 216-236):
`msg.entry.file_name().to_str().ok_or(IndexError::Utf8)?` fails first, then
the path's `to_str`; only when both decode does the insert run and the
generated id get sent back on `msg.resp`. -/
def handle_db_message (db : DbState) (msg : DbMessage) :
    Except IndexError (DbState × Int) :=
  match msg.entry.file_name.to_str with
  | none => Except.error IndexError.utf8
  | some name =>
    match msg.entry.path.to_str with
    | none => Except.error IndexError.utf8
    | some dir => Except.ok (insertDb db name msg.parent_id dir)

/-- The counters as loaded at index.rs lines 256-259. -/
structure Counters where
  done : Nat
  queued : Nat
  spawned : Nat
  done_first : Bool
deriving DecidableEq, Repr

/-- The quiescence test of the worker-completion branch
(index.rs lines 260-266): `todo = queued - done`, `doing = spawned - done`,
completed when `todo == 0 && doing == 0 && done_first`. -/
def quiescent (c : Counters) : Bool :=
  let todo := c.queued - c.done
  let doing := c.spawned - c.done
  todo == 0 && doing == 0 && c.done_first

/-- One event the `select!` of `Indexer::index` (index.rs lines 250-281) can
wake up on, with the data the corresponding branch receives. -/
inductive Event where
  | noNextTask
  | taskDone
  | fatalError (e : IndexError)
  | dbMsg (m : DbMessage)
  | indexFutDone
deriving DecidableEq, Repr

/-- Where one loop iteration leaves the run: still running, completed
(`break` followed by `Ok(())`), or aborted (`return Err(e)`). -/
inductive LoopAction where
  | running
  | completed
  | aborted (e : IndexError)
deriving DecidableEq, Repr

/-- One iteration of the orchestrator loop of `Indexer::index`
(index.rs lines 249-282): the branch taken for the given event, returning
the loop outcome and the store state after the iteration.  The
`db_rx` branch calls `handle_db_message(msg).await?`, so its error aborts
the run; the `index_fut_task` branch merely re-arms the dispatcher. -/
def index_step (db : DbState) (c : Counters) (ev : Event) : LoopAction × DbState :=
  match ev with
  | Event.noNextTask => (LoopAction.completed, db)
  | Event.taskDone =>
    (if quiescent c then LoopAction.completed else LoopAction.running, db)
  | Event.fatalError e => (LoopAction.aborted e, db)
  | Event.dbMsg m =>
    match handle_db_message db m with
    | Except.ok (db', _) => (LoopAction.running, db')
    | Except.error e => (LoopAction.aborted e, db)
  | Event.indexFutDone => (LoopAction.running, db)

/-- The five branches of the `select!` in `Indexer::index`, in source order
(index.rs lines 252-280). -/
inductive SelBranch where
  | noNextTask
  | taskDone
  | fatalError
  | dbMsg
  | indexFut
deriving DecidableEq, Repr

/-- The `select! { biased; ... }` of `Indexer::index`: with `biased`, tokio
polls the branches in the order written, so the serviced branch is the first
ready one in the order `no_next_task_rx`, `task_done_rx`, `fatal_error`,
`db_rx`, `index_fut_task`. -/
def select_biased (r1 r2 r3 r4 r5 : Bool) : Option SelBranch :=
  if r1 then some SelBranch.noNextTask
  else if r2 then some SelBranch.taskDone
  else if r3 then some SelBranch.fatalError
  else if r4 then some SelBranch.dbMsg
  else if r5 then some SelBranch.indexFut
  else none

/-- Specification-side description of a biased select: the first ready
branch in the given priority list. -/
def firstReady : List (Bool × SelBranch) → Option SelBranch
  | [] => none
  | (b, br) :: rest => if b then some br else firstReady rest

namespace Counting

/-!
A small-step model of everything that touches the progress counters during a
run, on a multithreaded runtime where the dispatcher (`do_index`, polled
inside the orchestrator's `select!`) and the spawned scan workers execute
concurrently.  Scan workers are interchangeable as far as the counters are
concerned, so the pool of running workers is abstracted to two counts:

* `scanning`: workers inside `process_task` not currently between the
  `todo_queue_tx.send` of a subtask (index.rs line 110) and the matching
  `queued.fetch_add(1)` (line 116);
* `mid`: workers that have sent a subtask but not yet incremented `queued`.
  (A worker is sequential, so it holds at most one pending increment, and it
  cannot return from `process_task` while one is pending.)

`queue` is the number of tasks sitting in the unbounded todo channel.
The initial state reflects `Indexer::new` (index.rs lines 157-193): the root
task has been sent and `queued` starts at 1, before any concurrency begins.
-/

/-- The counter-relevant shared state of one indexing run. -/
structure IState where
  queue : Nat
  queued : Nat
  spawned : Nat
  done : Nat
  scanning : Nat
  mid : Nat
deriving DecidableEq, Repr

/-- The state right after `Indexer::new`: the root task is in the queue and
`queued = 1`, `spawned = done = 0`, no worker running. -/
def init : IState := { queue := 1, queued := 1, spawned := 0, done := 0, scanning := 0, mid := 0 }

/-- The atomic transitions of the run:

* `dispatch`: `do_index` receives a task from the queue, increments
  `spawned` (index.rs line 200) and spawns a scan worker;
* `send`: a scanning worker pushes a discovered subdirectory task
  (line 110), entering the window before its `queued` increment;
* `incq`: that worker executes `queued.fetch_add(1)` (line 116);
* `finish`: a worker returns from `process_task` (successfully or with a
  non-fatal error) and the `do_index` closure increments `done` (line 206).
-/
inductive Step : IState → IState → Prop where
  | dispatch (q qd sp d sc m : Nat) :
      Step ⟨q + 1, qd, sp, d, sc, m⟩ ⟨q, qd, sp + 1, d, sc + 1, m⟩
  | send (q qd sp d sc m : Nat) :
      Step ⟨q, qd, sp, d, sc + 1, m⟩ ⟨q + 1, qd, sp, d, sc, m + 1⟩
  | incq (q qd sp d sc m : Nat) :
      Step ⟨q, qd, sp, d, sc, m + 1⟩ ⟨q, qd + 1, sp, d, sc + 1, m⟩
  | finish (q qd sp d sc m : Nat) :
      Step ⟨q, qd, sp, d, sc + 1, m⟩ ⟨q, qd, sp, d + 1, sc, m⟩

/-- States reachable during one indexing run. -/
inductive Reachable : IState → Prop where
  | init : Reachable init
  | step {s s' : IState} : Reachable s → Step s s' → Reachable s'

/-- The inductive invariant: `spawned` counts the finished workers plus the
running ones, and every task ever sent (`queue + spawned` of them) is
accounted for in `queued` except those whose `fetch_add` is still pending. -/
def Inv (s : IState) : Prop :=
  s.spawned = s.done + s.scanning + s.mid ∧
  s.queue + s.spawned = s.queued + s.mid

end Counting

/-!
Whole-run model over an explicit finite directory tree, for the functional
correctness of a run with no errors (claim C4).  The tree is symlink-free
and finite by construction of the inductive type.  The run is modelled as
the task-queue execution the code performs: a queue of pending directory
tasks, seeded with the root task built in `Indexer::new`, each processed by
inserting one row per child (via the writer, `handle_db_message`'s success
path `insertDb`) and appending one new task per subdirectory child, exactly
as `process_task` sends them.
-/

/-- A finite, symlink-free filesystem tree: a file or a directory with an
ordered list of children. -/
inductive FsNode where
  | file (name : String)
  | dir (name : String) (children : List FsNode)

mutual

/-- The number of filesystem entries in a tree, the root node included. -/
def countNodes : FsNode → Nat
  | FsNode.file _ => 1
  | FsNode.dir _ cs => 1 + countList cs

/-- The number of filesystem entries in a forest. -/
def countList : List FsNode → Nat
  | [] => 0
  | c :: cs => countNodes c + countList cs

end

/-- The name of a node. -/
def fsName : FsNode → String
  | FsNode.file n => n
  | FsNode.dir n _ => n

/-- The full path of an entry named `name` inside the directory whose full
path is `ppath` (the `entry.path()` of the child). -/
def childPath (ppath name : String) : String := ppath ++ "/" ++ name

/-- A pending directory task of the whole-run model: the directory's full
path, its children (the listing `fs::read_dir` will deliver, in order), and
the `parent_id` rows of those children must carry — the model counterpart of
`Task`. -/
structure TaskM where
  path : String
  children : List FsNode
  parent_id : Int

/-- One `process_task` over listing `cs`, error-free: for each child in
listing order, insert its row with the task's `parent_id` (what the writer
does for the worker's `DbMessage`), and collect one new task per
subdirectory child whose `parent_id` is the id generated for that child
(what the worker pushes onto the todo queue). -/
def processChildren (pid : Int) (ppath : String) :
    List FsNode → DbState → DbState × List TaskM
  | [], db => (db, [])
  | c :: cs, db =>
    let ins := insertDb db (fsName c) pid (childPath ppath (fsName c))
    let tail := processChildren pid ppath cs ins.1
    match c with
    | FsNode.file _ => tail
    | FsNode.dir n cs' =>
      (tail.1, { path := childPath ppath n, children := cs', parent_id := ins.2 } :: tail.2)

/-- Termination measure of one task: itself plus everything below it. -/
def taskWeight (t : TaskM) : Nat := 1 + countList t.children

/-- Termination measure of the whole queue. -/
def queueWeight : List TaskM → Nat
  | [] => 0
  | t :: ts => taskWeight t + queueWeight ts

/-- The task-queue execution of one run: repeatedly pop the front task,
process it, and append the new tasks it produced; stop when the queue is
empty (which the run detects through the quiescence predicate). -/
def runQueue : List TaskM → DbState → DbState
  | [], db => db
  | t :: rest, db =>
    runQueue (rest ++ (processChildren t.parent_id t.path t.children db).2)
      (processChildren t.parent_id t.path t.children db).1
termination_by q _ => queueWeight q
decreasing_by
  have happ : ∀ (a b : List TaskM), queueWeight (a ++ b) = queueWeight a + queueWeight b := by
    intro a b
    induction a with
    | nil => simp [queueWeight]
    | cons x xs ih =>
      simp only [List.cons_append, queueWeight, List.append_eq] at ih ⊢
      omega
  have key : ∀ (cs : List FsNode) (db' : DbState),
      queueWeight (processChildren t.parent_id t.path cs db').2 ≤ countList cs := by
    intro cs
    induction cs with
    | nil => intro db'; simp [processChildren, queueWeight]
    | cons c cs ih =>
      intro db'
      cases c with
      | file n =>
        simp only [processChildren, countList, countNodes]
        exact le_trans (ih _) (by omega)
      | dir n cs' =>
        simp only [processChildren, countList, countNodes, queueWeight, taskWeight]
        have := ih (insertDb db' (fsName (FsNode.dir n cs')) t.parent_id
          (childPath t.path (fsName (FsNode.dir n cs')))).1
        omega
  simp only [happ, queueWeight]
  have := key t.children db
  unfold taskWeight
  omega

/-- The number of queue entries, in the model closed-run measure
`queueCount`: the total number of filesystem entries the tasks of the queue
still have to insert (all descendants of each task's directory). -/
def queueCount : List TaskM → Nat
  | [] => 0
  | t :: ts => countList t.children + queueCount ts

/-- Specification-side description of the tasks a scan worker pushes while
processing listing `es` starting at entry index `k` (spec §4.3): one task
per directory entry, whose path is the entry's path and whose `parent_id` is
the identifier returned for that entry. -/
def specChildTasks (reply : Nat → Option Int) : Nat → List DirEntry → List Task
  | _, [] => []
  | k, e :: es =>
    (if e.is_dir then [{ path := e.path, parent_id := (index_direntry (reply k)).1 }] else [])
      ++ specChildTasks reply (k + 1) es

/-- The fatal errors `index_direntry` emits over listing `es` starting at
entry index `k` (one `GetId` per dropped reply). -/
def replyFatals (reply : Nat → Option Int) : Nat → List DirEntry → List IndexError
  | _, [] => []
  | k, _ :: es => (index_direntry (reply k)).2 ++ replyFatals reply (k + 1) es

/-- The number of directory entries in a listing. -/
def countDirs (es : List DirEntry) : Nat := (es.filter (fun e => e.is_dir)).length

/-- A row satisfying the parent-structure part of spec §8: its parent is the
root's identifier, or the generated identifier of the row of its containing
directory (the row whose full path is the row's path minus its last
component). -/
def GoodRow (rootId : Int) (rows : List Row) (row : Row) : Prop :=
  row.parent = rootId ∨
    ∃ r' ∈ rows, r'.id = row.parent ∧ row.dir = childPath r'.dir row.name

/-- A pending task whose `parent_id` is attachable: the root's identifier,
or the generated identifier of an already-persisted row for the task's own
directory. -/
def GoodTask (rootId : Int) (rows : List Row) (t : TaskM) : Prop :=
  t.parent_id = rootId ∨ ∃ r' ∈ rows, r'.id = t.parent_id ∧ r'.dir = t.path

/-- The root task seeded by `Indexer::new` (index.rs lines 165-171): scan the
root provider's path, rows parented to the root's own identifier. -/
def initialTask (rootPath : String) (cs : List FsNode) (rootId : Int) : TaskM :=
  { path := rootPath, children := cs, parent_id := rootId }

/-- The store at the start of a run: no rows from this run yet, and the next
id the store will generate. -/
def initialDb (initId : Int) : DbState := { rows := [], nextId := initId }

/-- A whole error-free indexing run over the tree rooted at `rootPath` with
children `cs`: the task-queue execution seeded with the root task. -/
def indexRun (rootPath : String) (cs : List FsNode) (rootId initId : Int) : DbState :=
  runQueue [initialTask rootPath cs rootId] (initialDb initId)

/-! ## Sample values used to instantiate witnesses -/

/-- A plain file entry `/r/f`. -/
def sampleFile : DirEntry :=
  { file_name := { to_str := some "f" }, path := { to_str := some "/r/f" }, is_dir := false }

/-- A second plain file entry `/r/g`. -/
def sampleFile2 : DirEntry :=
  { file_name := { to_str := some "g" }, path := { to_str := some "/r/g" }, is_dir := false }

/-- A subdirectory entry `/r/d`. -/
def sampleDir : DirEntry :=
  { file_name := { to_str := some "d" }, path := { to_str := some "/r/d" }, is_dir := true }

/-- An entry whose file name is not valid UTF-8. -/
def sampleBadEntry : DirEntry :=
  { file_name := { to_str := none }, path := { to_str := some "/r/f" }, is_dir := false }

/-- The root task: scan `/r`, rows parented to root id 1. -/
def sampleTask : Task := { path := { to_str := some "/r" }, parent_id := 1 }

/-- An empty store whose next generated id is 2. -/
def sampleDb : DbState := { rows := [], nextId := 2 }

/-- Counters of a run with the root task in flight. -/
def sampleCnt : Counters := { done := 0, queued := 1, spawned := 1, done_first := false }

/-- A write request for the badly encoded entry. -/
def sampleMsgBad : DbMessage := { entry := sampleBadEntry, parent_id := 1 }

/-- A sample I/O error. -/
def sampleIo : IOErr := { code := 13 }

/-- A writer that always replies with id 9. -/
def replyAll9 : Nat → Option Int := fun _ => some 9

/-- A writer that drops the reply of the first request and replies 9 after. -/
def replyDrop0 : Nat → Option Int := fun k => if k = 0 then none else some 9

/-! ## Structural lemmas about the scan-worker loop -/

theorem process_task_go_ok (root_id : Int) (reply : Nat → Option Int) (task : Task) :
    ∀ (es : List DirEntry) (k : Nat),
      process_task_go root_id reply task k (es.map Except.ok) =
        { dbMsgs := es.map (fun e => (e, task.parent_id)),
          fatals := replyFatals reply k es,
          enqueued := specChildTasks reply k es,
          queuedInc := countDirs es,
          doneFirstSet := task.parent_id == root_id,
          result := Except.ok () } := by
  intro es
  induction es with
  | nil =>
    intro k
    simp [process_task_go, replyFatals, specChildTasks, countDirs]
  | cons e es ih =>
    intro k
    rw [List.map_cons, process_task_go, ih (k + 1)]
    simp only [replyFatals, specChildTasks, countDirs, List.filter_cons]
    by_cases hd : e.is_dir <;> simp [hd] <;> omega

theorem process_task_go_err (root_id : Int) (reply : Nat → Option Int) (task : Task)
    (io : IOErr) (rest : List (Except IOErr DirEntry)) :
    ∀ (pre : List DirEntry) (k : Nat),
      process_task_go root_id reply task k (pre.map Except.ok ++ Except.error io :: rest) =
        { dbMsgs := pre.map (fun e => (e, task.parent_id)),
          fatals := replyFatals reply k pre,
          enqueued := specChildTasks reply k pre,
          queuedInc := countDirs pre,
          doneFirstSet := false,
          result := Except.error { path := task.path, error := io } } := by
  intro pre
  induction pre with
  | nil =>
    intro k
    simp [process_task_go, replyFatals, specChildTasks, countDirs]
  | cons e pre ih =>
    intro k
    rw [List.map_cons, List.cons_append, process_task_go, ih (k + 1)]
    simp only [replyFatals, specChildTasks, countDirs, List.filter_cons]
    by_cases hd : e.is_dir <;> simp [hd] <;> omega

theorem replyFatals_eq_nil (reply : Nat → Option Int) (h : ∀ k, (reply k).isSome) :
    ∀ (es : List DirEntry) (k : Nat), replyFatals reply k es = [] := by
  intro es
  induction es with
  | nil => intro k; rfl
  | cons e es ih =>
    intro k
    cases hk : reply k with
    | some i => simp [replyFatals, index_direntry, hk, ih]
    | none => have := h k; rw [hk] at this; simp at this

/-! ## The claims -/

/-- Claim C1: on every worker-completion notification the orchestrator
computes `todo = queued - done` and `doing = spawned - done` and declares the
run completed exactly when `todo == 0 && doing == 0 && done_first`; given
`done ≤ spawned ≤ queued` this is equivalent to `queued == done` together
with `done_first == true`. -/
theorem c1_completion_predicate (db : DbState) (c : Counters)
    (h1 : c.done ≤ c.spawned) (h2 : c.spawned ≤ c.queued) :
    ((index_step db c Event.taskDone).1 = LoopAction.completed ↔
      (c.queued - c.done = 0 ∧ c.spawned - c.done = 0 ∧ c.done_first = true)) ∧
    ((index_step db c Event.taskDone).1 = LoopAction.completed ↔
      (c.queued = c.done ∧ c.done_first = true)) := by
  have hq : ((index_step db c Event.taskDone).1 = LoopAction.completed) ↔ quiescent c = true := by
    simp only [index_step]
    by_cases h : quiescent c <;> simp [h]
  have hq2 : quiescent c = true ↔
      (c.queued - c.done = 0 ∧ c.spawned - c.done = 0 ∧ c.done_first = true) := by
    simp [quiescent, Bool.and_eq_true, beq_iff_eq, and_assoc]
  refine ⟨hq.trans hq2, (hq.trans hq2).trans ?_⟩
  constructor
  · rintro ⟨a, b, hc⟩
    exact ⟨by omega, hc⟩
  · rintro ⟨a, hc⟩
    exact ⟨by omega, by omega, hc⟩

/-- Witness for claim C1 at `done = queued = spawned = 1`, `done_first`. -/
theorem c1_completion_predicate_witness :
    ((1 : Nat) ≤ 1 ∧ (1 : Nat) ≤ 1) ∧
    (((index_step { rows := [], nextId := 1 }
          { done := 1, queued := 1, spawned := 1, done_first := true }
          Event.taskDone).1 = LoopAction.completed ↔
        ((1 : Nat) - 1 = 0 ∧ (1 : Nat) - 1 = 0 ∧ true = true)) ∧
      ((index_step { rows := [], nextId := 1 }
          { done := 1, queued := 1, spawned := 1, done_first := true }
          Event.taskDone).1 = LoopAction.completed ↔
        ((1 : Nat) = 1 ∧ true = true))) :=
  ⟨⟨le_refl 1, le_refl 1⟩,
    c1_completion_predicate { rows := [], nextId := 1 }
      { done := 1, queued := 1, spawned := 1, done_first := true }
      (by decide) (by decide)⟩

/-- Claim C2 (code bug): when the directory listing of a task stops on an
I/O error, `process_task` returns through the `non_fatal!` macro before the
`done_first` store at index.rs lines 120-122 is reached, so a task whose
`parent_id` equals the root's identifier does NOT set `done_first` on the
error path (first and third conjuncts evaluate the code at such failing
inputs; the last conjunct shows the clean path does set it). -/
theorem c2_done_first_skipped_on_error :
    (process_task 5 (fun _ => some 7) (Except.ok [Except.error { code := 3 }])
        { path := { to_str := some "/r" }, parent_id := 5 }).doneFirstSet = false ∧
    (process_task 5 (fun _ => some 7) (Except.ok [Except.error { code := 3 }])
        { path := { to_str := some "/r" }, parent_id := 5 }).result =
      Except.error { path := { to_str := some "/r" }, error := { code := 3 } } ∧
    (process_task 5 (fun _ => some 7) (Except.error { code := 3 })
        { path := { to_str := some "/r" }, parent_id := 5 }).doneFirstSet = false ∧
    (process_task 5 (fun _ => some 7) (Except.ok [])
        { path := { to_str := some "/r" }, parent_id := 5 }).doneFirstSet = true := by
  decide

/-- Claim C5: a scan worker issues one write request per entry in listing
order (each carrying `task.parent_id`), and for every directory entry pushes
exactly one new task whose path is the entry's path and whose `parent_id` is
the returned identifier, bumping `queued` once per directory entry. -/
theorem c5_listing_order_and_child_tasks (root_id : Int) (reply : Nat → Option Int)
    (task : Task) (es : List DirEntry) (h : ∀ k, (reply k).isSome) :
    (process_task root_id reply (Except.ok (es.map Except.ok)) task).dbMsgs =
      es.map (fun e => (e, task.parent_id)) ∧
    (process_task root_id reply (Except.ok (es.map Except.ok)) task).enqueued =
      specChildTasks reply 0 es ∧
    (process_task root_id reply (Except.ok (es.map Except.ok)) task).queuedInc =
      countDirs es ∧
    (process_task root_id reply (Except.ok (es.map Except.ok)) task).fatals = [] := by
  simp [process_task, process_task_go_ok, replyFatals_eq_nil reply h]

/-- Witness for claim C5: one file and one directory entry, all replies
delivered. -/
theorem c5_listing_order_and_child_tasks_witness :
    (∀ k : Nat, (replyAll9 k).isSome) ∧
    ((process_task 1 replyAll9 (Except.ok ([sampleFile, sampleDir].map Except.ok))
        sampleTask).dbMsgs =
      [sampleFile, sampleDir].map (fun e => (e, sampleTask.parent_id)) ∧
     (process_task 1 replyAll9 (Except.ok ([sampleFile, sampleDir].map Except.ok))
        sampleTask).enqueued =
      specChildTasks replyAll9 0 [sampleFile, sampleDir] ∧
     (process_task 1 replyAll9 (Except.ok ([sampleFile, sampleDir].map Except.ok))
        sampleTask).queuedInc =
      countDirs [sampleFile, sampleDir] ∧
     (process_task 1 replyAll9 (Except.ok ([sampleFile, sampleDir].map Except.ok))
        sampleTask).fatals = []) :=
  ⟨fun _ => rfl,
    c5_listing_order_and_child_tasks 1 replyAll9 sampleTask [sampleFile, sampleDir]
      (fun _ => rfl)⟩

/-- Claim C6: an I/O error while opening or iterating the directory stops the
task at once — only the entries before the error were sent to the writer, the
remaining stream is never visited — produces exactly one non-fatal error
record carrying the task's path and the underlying error, still increments
`done` by one, and sends no fatal error. -/
theorem c6_nonfatal_error_scoped_to_task (root_id : Int) (reply : Nat → Option Int)
    (task : Task) (pre : List DirEntry) (io : IOErr)
    (rest : List (Except IOErr DirEntry)) (h : ∀ k, (reply k).isSome) :
    (process_task root_id reply
        (Except.ok (pre.map Except.ok ++ Except.error io :: rest)) task).dbMsgs =
      pre.map (fun e => (e, task.parent_id)) ∧
    (process_task root_id reply
        (Except.ok (pre.map Except.ok ++ Except.error io :: rest)) task).result =
      Except.error { path := task.path, error := io } ∧
    (process_task root_id reply
        (Except.ok (pre.map Except.ok ++ Except.error io :: rest)) task).fatals = [] ∧
    do_index_on_worker_done
        (process_task root_id reply
          (Except.ok (pre.map Except.ok ++ Except.error io :: rest)) task).result =
      { errorsAppended := [{ path := task.path, error := io }], doneInc := 1 } ∧
    (process_task root_id reply (Except.error io) task).dbMsgs = [] ∧
    (process_task root_id reply (Except.error io) task).result =
      Except.error { path := task.path, error := io } ∧
    do_index_on_worker_done (process_task root_id reply (Except.error io) task).result =
      { errorsAppended := [{ path := task.path, error := io }], doneInc := 1 } := by
  simp [process_task, process_task_go_err, replyFatals_eq_nil reply h,
    do_index_on_worker_done]

/-- Witness for claim C6: a listing that fails after one entry. -/
theorem c6_nonfatal_error_scoped_to_task_witness :
    (∀ k : Nat, (replyAll9 k).isSome) ∧
    ((process_task 1 replyAll9
        (Except.ok ([sampleFile].map Except.ok ++ Except.error sampleIo :: [Except.ok sampleFile2]))
        sampleTask).dbMsgs =
      [sampleFile].map (fun e => (e, sampleTask.parent_id)) ∧
     (process_task 1 replyAll9
        (Except.ok ([sampleFile].map Except.ok ++ Except.error sampleIo :: [Except.ok sampleFile2]))
        sampleTask).result =
      Except.error { path := sampleTask.path, error := sampleIo } ∧
     (process_task 1 replyAll9
        (Except.ok ([sampleFile].map Except.ok ++ Except.error sampleIo :: [Except.ok sampleFile2]))
        sampleTask).fatals = [] ∧
     do_index_on_worker_done
        (process_task 1 replyAll9
          (Except.ok ([sampleFile].map Except.ok ++ Except.error sampleIo :: [Except.ok sampleFile2]))
          sampleTask).result =
      { errorsAppended := [{ path := sampleTask.path, error := sampleIo }], doneInc := 1 } ∧
     (process_task 1 replyAll9 (Except.error sampleIo) sampleTask).dbMsgs = [] ∧
     (process_task 1 replyAll9 (Except.error sampleIo) sampleTask).result =
      Except.error { path := sampleTask.path, error := sampleIo } ∧
     do_index_on_worker_done
        (process_task 1 replyAll9 (Except.error sampleIo) sampleTask).result =
      { errorsAppended := [{ path := sampleTask.path, error := sampleIo }], doneInc := 1 }) :=
  ⟨fun _ => rfl,
    c6_nonfatal_error_scoped_to_task 1 replyAll9 sampleTask [sampleFile] sampleIo
      [Except.ok sampleFile2] (fun _ => rfl)⟩

/-- Claim C7: when the writer drops a reply sender, `index_direntry` reports
the fatal `IndexError::GetId` on the fatal-error channel (returning the
sentinel `0`), and the orchestrator loop's fatal-error branch returns that
error, aborting the run. -/
theorem c7_dropped_reply_aborts_run (db : DbState) (c : Counters) :
    index_direntry none = (0, [IndexError.getId]) ∧
    index_step db c (Event.fatalError IndexError.getId) =
      (LoopAction.aborted IndexError.getId, db) :=
  ⟨rfl, rfl⟩

/-- Claim C8: a write request whose entry name or path is not valid UTF-8
fails in `handle_db_message` with `IndexError::Utf8`, and the orchestrator's
`db_rx` branch propagates the error out of the loop, aborting the run. -/
theorem c8_utf8_fatal (db : DbState) (c : Counters) (msg : DbMessage)
    (h : msg.entry.file_name.to_str = none ∨ msg.entry.path.to_str = none) :
    handle_db_message db msg = Except.error IndexError.utf8 ∧
    index_step db c (Event.dbMsg msg) = (LoopAction.aborted IndexError.utf8, db) := by
  have h1 : handle_db_message db msg = Except.error IndexError.utf8 := by
    unfold handle_db_message
    rcases h with h | h
    · rw [h]
    · cases hf : msg.entry.file_name.to_str with
      | none => rfl
      | some name => rw [h]
  refine ⟨h1, ?_⟩
  simp [index_step, h1]

/-- Witness for claim C8: an entry whose file name is not valid UTF-8. -/
theorem c8_utf8_fatal_witness :
    (sampleMsgBad.entry.file_name.to_str = none ∨
      sampleMsgBad.entry.path.to_str = none) ∧
    (handle_db_message sampleDb sampleMsgBad = Except.error IndexError.utf8 ∧
      index_step sampleDb sampleCnt (Event.dbMsg sampleMsgBad) =
        (LoopAction.aborted IndexError.utf8, sampleDb)) :=
  ⟨Or.inl rfl, c8_utf8_fatal sampleDb sampleCnt sampleMsgBad (Or.inl rfl)⟩

/-- Claim C9: with `biased`, the `select!` of the orchestrator services the
first ready branch in source order: end-of-queue signal, worker-completion
notification, fatal-error report, write-request arrival (then the dispatcher
future) — i.e. it equals the specification `firstReady` on that priority
list for every readiness pattern. -/
theorem c9_biased_select_priority :
    ∀ r1 r2 r3 r4 r5 : Bool,
      select_biased r1 r2 r3 r4 r5 =
        firstReady [(r1, SelBranch.noNextTask), (r2, SelBranch.taskDone),
          (r3, SelBranch.fatalError), (r4, SelBranch.dbMsg), (r5, SelBranch.indexFut)] := by
  decide

/-- Claim C10: when the reply channel yields no identifier, the scan worker
does not stop: `index_direntry` reports the fatal error and returns the
sentinel `0`, the loop continues over the remaining entries (their write
requests are still issued), and a directory entry whose reply was lost still
gets a child task enqueued with `parent_id = 0`. -/
theorem c10_sentinel_zero_continues (root_id : Int) (reply : Nat → Option Int)
    (task : Task) (e1 : DirEntry) (es : List DirEntry)
    (h0 : reply 0 = none) (hdir : e1.is_dir = true) :
    index_direntry (reply 0) = (0, [IndexError.getId]) ∧
    (process_task root_id reply (Except.ok (Except.ok e1 :: es.map Except.ok)) task).dbMsgs =
      (e1, task.parent_id) :: es.map (fun e => (e, task.parent_id)) ∧
    (process_task root_id reply (Except.ok (Except.ok e1 :: es.map Except.ok)) task).enqueued =
      { path := e1.path, parent_id := 0 } :: specChildTasks reply 1 es ∧
    IndexError.getId ∈
      (process_task root_id reply (Except.ok (Except.ok e1 :: es.map Except.ok)) task).fatals := by
  have hmain := process_task_go_ok root_id reply task es 1
  refine ⟨by simp [h0, index_direntry], ?_, ?_, ?_⟩
  · simp [process_task, process_task_go, hmain]
  · simp [process_task, process_task_go, hmain, h0, index_direntry, hdir]
  · simp [process_task, process_task_go, hmain, h0, index_direntry]

/-- Witness for claim C10: a directory entry whose reply is dropped,
followed by one more entry. -/
theorem c10_sentinel_zero_continues_witness :
    (replyDrop0 0 = none ∧ sampleDir.is_dir = true) ∧
    (index_direntry (replyDrop0 0) = (0, [IndexError.getId]) ∧
      (process_task 1 replyDrop0
          (Except.ok (Except.ok sampleDir :: [sampleFile].map Except.ok))
          sampleTask).dbMsgs =
        (sampleDir, sampleTask.parent_id)
          :: [sampleFile].map (fun e => (e, sampleTask.parent_id)) ∧
      (process_task 1 replyDrop0
          (Except.ok (Except.ok sampleDir :: [sampleFile].map Except.ok))
          sampleTask).enqueued =
        { path := sampleDir.path, parent_id := 0 } :: specChildTasks replyDrop0 1 [sampleFile] ∧
      IndexError.getId ∈
        (process_task 1 replyDrop0
          (Except.ok (Except.ok sampleDir :: [sampleFile].map Except.ok))
          sampleTask).fatals) :=
  ⟨⟨rfl, rfl⟩,
    c10_sentinel_zero_continues 1 replyDrop0 sampleTask sampleDir [sampleFile] rfl rfl⟩

/-! ## The counter invariant (claim C3) -/

/-- The inductive invariant `Inv` holds in every reachable state of the
counter model. -/
theorem counting_inv (s : Counting.IState) (h : Counting.Reachable s) : Counting.Inv s := by
  induction h with
  | init => exact ⟨rfl, rfl⟩
  | step hr hst ih =>
    cases hst <;> simp only [Counting.Inv] at ih ⊢ <;> omega

/-- Counterexample to claim C3 as stated: the state reached by
dispatch-root, send-subtask, dispatch-subtask — the second dispatch lands in
the window between the worker's `todo_queue_tx.send` (index.rs line 110) and
its `queued.fetch_add(1)` (line 116) — is reachable and has
`spawned = 2 > queued = 1`, violating `spawned ≤ queued`. -/
theorem c3_spawned_gt_queued_counterexample :
    Counting.Reachable
      { queue := 0, queued := 1, spawned := 2, done := 0, scanning := 1, mid := 1 } ∧
    ¬(({ queue := 0, queued := 1, spawned := 2, done := 0, scanning := 1, mid := 1 } :
        Counting.IState).spawned ≤
      ({ queue := 0, queued := 1, spawned := 2, done := 0, scanning := 1, mid := 1 } :
        Counting.IState).queued) := by
  constructor
  · have h1 : Counting.Reachable Counting.init := Counting.Reachable.init
    have h2 : Counting.Reachable
        { queue := 0, queued := 1, spawned := 1, done := 0, scanning := 1, mid := 0 } :=
      Counting.Reachable.step h1 (Counting.Step.dispatch 0 1 0 0 0 0)
    have h3 : Counting.Reachable
        { queue := 1, queued := 1, spawned := 1, done := 0, scanning := 0, mid := 1 } :=
      Counting.Reachable.step h2 (Counting.Step.send 0 1 1 0 0 0)
    exact Counting.Reachable.step h3 (Counting.Step.dispatch 0 1 1 0 0 1)
  · decide

/-- Claim C3 (amended): at every reachable point of a run,
`done ≤ spawned` and `done ≤ queued` hold — so the orchestrator's
natural-number subtractions `queued - done` and `spawned - done` never
underflow (last two conjuncts) — but `spawned ≤ queued` can be transiently
violated between a worker's queue send and its `queued` increment. -/
theorem c3_no_underflow (s : Counting.IState) (h : Counting.Reachable s) :
    s.done ≤ s.spawned ∧ s.done ≤ s.queued ∧
    s.spawned - s.done + s.done = s.spawned ∧
    s.queued - s.done + s.done = s.queued := by
  have hi := counting_inv s h
  simp only [Counting.Inv] at hi
  omega

/-- Witness for claim C3 (amended) at the initial state. -/
theorem c3_no_underflow_witness :
    Counting.init.done ≤ Counting.init.spawned ∧
    Counting.init.done ≤ Counting.init.queued ∧
    Counting.init.spawned - Counting.init.done + Counting.init.done = Counting.init.spawned ∧
    Counting.init.queued - Counting.init.done + Counting.init.done = Counting.init.queued :=
  c3_no_underflow Counting.init Counting.Reachable.init

/-! ## Lemmas about the whole-run model (claim C4) -/

theorem queueCount_append (a b : List TaskM) :
    queueCount (a ++ b) = queueCount a + queueCount b := by
  induction a with
  | nil => simp [queueCount]
  | cons t ts ih =>
    simp only [List.cons_append, queueCount, List.append_eq] at ih ⊢
    omega

theorem processChildren_rows_len (pid : Int) (ppath : String) :
    ∀ (cs : List FsNode) (db : DbState),
      ((processChildren pid ppath cs db).1).rows.length = db.rows.length + cs.length := by
  intro cs
  induction cs with
  | nil => intro db; simp [processChildren]
  | cons c cs ih =>
    intro db
    cases c with
    | file n =>
      simp only [processChildren, ih, insertDb, List.length_append, List.length_cons,
        List.length_nil]
      omega
    | dir n cs' =>
      simp only [processChildren, ih, insertDb, List.length_append, List.length_cons,
        List.length_nil]
      omega

theorem processChildren_count (pid : Int) (ppath : String) :
    ∀ (cs : List FsNode) (db : DbState),
      countList cs = cs.length + queueCount (processChildren pid ppath cs db).2 := by
  intro cs
  induction cs with
  | nil => intro db; simp [processChildren, countList, queueCount]
  | cons c cs ih =>
    intro db
    cases c with
    | file n =>
      simp only [processChildren, countList, countNodes, List.length_cons]
      have h := ih (insertDb db (fsName (FsNode.file n)) pid
        (childPath ppath (fsName (FsNode.file n)))).1
      omega
    | dir n cs' =>
      simp only [processChildren, countList, countNodes, List.length_cons, queueCount]
      have h := ih (insertDb db (fsName (FsNode.dir n cs')) pid
        (childPath ppath (fsName (FsNode.dir n cs')))).1
      omega

theorem processChildren_rows_sub (pid : Int) (ppath : String) :
    ∀ (cs : List FsNode) (db : DbState) (r : Row),
      r ∈ db.rows → r ∈ ((processChildren pid ppath cs db).1).rows := by
  intro cs
  induction cs with
  | nil => intro db r hr; simpa [processChildren] using hr
  | cons c cs ih =>
    intro db r hr
    have hr1 : r ∈ (insertDb db (fsName c) pid (childPath ppath (fsName c))).1.rows := by
      simp [insertDb]
      exact Or.inl hr
    cases c with
    | file n => exact ih _ r hr1
    | dir n cs' => exact ih _ r hr1

theorem processChildren_rows_cases (pid : Int) (ppath : String) :
    ∀ (cs : List FsNode) (db : DbState) (r : Row),
      r ∈ ((processChildren pid ppath cs db).1).rows →
      r ∈ db.rows ∨ (r.parent = pid ∧ r.dir = childPath ppath r.name) := by
  intro cs
  induction cs with
  | nil => intro db r hr; exact Or.inl (by simpa [processChildren] using hr)
  | cons c cs ih =>
    intro db r hr
    have step : r ∈ (insertDb db (fsName c) pid (childPath ppath (fsName c))).1.rows →
        r ∈ db.rows ∨ (r.parent = pid ∧ r.dir = childPath ppath r.name) := by
      intro h
      simp only [insertDb, List.mem_append, List.mem_singleton] at h
      rcases h with h | h
      · exact Or.inl h
      · subst h
        exact Or.inr ⟨rfl, rfl⟩
    cases c with
    | file n =>
      rcases ih _ r (by simpa [processChildren] using hr) with h | h
      · exact step h
      · exact Or.inr h
    | dir n cs' =>
      rcases ih _ r (by simpa [processChildren] using hr) with h | h
      · exact step h
      · exact Or.inr h

theorem processChildren_tasks_good (pid : Int) (ppath : String) :
    ∀ (cs : List FsNode) (db : DbState) (t : TaskM),
      t ∈ (processChildren pid ppath cs db).2 →
      ∃ r' ∈ ((processChildren pid ppath cs db).1).rows,
        r'.id = t.parent_id ∧ r'.dir = t.path := by
  intro cs
  induction cs with
  | nil => intro db t ht; simp [processChildren] at ht
  | cons c cs ih =>
    intro db t ht
    cases c with
    | file n =>
      simp only [processChildren] at ht ⊢
      exact ih _ t ht
    | dir n cs' =>
      simp only [processChildren, List.mem_cons] at ht ⊢
      rcases ht with ht | ht
      · subst ht
        refine ⟨{ id := db.nextId, name := fsName (FsNode.dir n cs'), parent := pid,
                  dir := childPath ppath (fsName (FsNode.dir n cs')) }, ?_, rfl, rfl⟩
        exact processChildren_rows_sub pid ppath cs _ _ (by simp [insertDb, fsName])
      · exact ih _ t ht

theorem processChildren_fresh (pid : Int) (ppath : String) :
    ∀ (cs : List FsNode) (db : DbState),
      db.nextId ≤ ((processChildren pid ppath cs db).1).nextId ∧
      ∀ r ∈ ((processChildren pid ppath cs db).1).rows,
        r ∈ db.rows ∨ db.nextId ≤ r.id := by
  intro cs
  induction cs with
  | nil => intro db; exact ⟨le_refl _, fun r hr => Or.inl (by simpa [processChildren] using hr)⟩
  | cons c cs ih =>
    intro db
    have hnext : (insertDb db (fsName c) pid (childPath ppath (fsName c))).1.nextId =
        db.nextId + 1 := rfl
    have key : db.nextId ≤
        ((processChildren pid ppath cs
          (insertDb db (fsName c) pid (childPath ppath (fsName c))).1).1).nextId ∧
        ∀ r ∈ ((processChildren pid ppath cs
          (insertDb db (fsName c) pid (childPath ppath (fsName c))).1).1).rows,
          r ∈ db.rows ∨ db.nextId ≤ r.id := by
      obtain ⟨h1, h2⟩ := ih (insertDb db (fsName c) pid (childPath ppath (fsName c))).1
      refine ⟨by omega, fun r hr => ?_⟩
      rcases h2 r hr with h | h
      · simp only [insertDb, List.mem_append, List.mem_singleton] at h
        rcases h with h | h
        · exact Or.inl h
        · subst h; exact Or.inr (le_refl _)
      · rw [hnext] at h
        exact Or.inr (by omega)
    cases c with
    | file n => exact key
    | dir n cs' => exact key

theorem runQueue_rows_len :
    ∀ (q : List TaskM) (db : DbState),
      (runQueue q db).rows.length = db.rows.length + queueCount q := by
  intro q db
  induction q, db using runQueue.induct with
  | case1 db => simp [runQueue, queueCount]
  | case2 t rest db ih =>
    rw [runQueue]
    rw [ih, queueCount_append]
    rw [processChildren_rows_len t.parent_id t.path t.children db]
    have h := processChildren_count t.parent_id t.path t.children db
    simp only [queueCount]
    omega

theorem runQueue_rows_sub :
    ∀ (q : List TaskM) (db : DbState) (r : Row),
      r ∈ db.rows → r ∈ (runQueue q db).rows := by
  intro q db
  induction q, db using runQueue.induct with
  | case1 db => intro r hr; simpa [runQueue] using hr
  | case2 t rest db ih =>
    intro r hr
    rw [runQueue]
    exact ih r (processChildren_rows_sub t.parent_id t.path t.children db r hr)

theorem runQueue_fresh :
    ∀ (q : List TaskM) (db : DbState),
      db.nextId ≤ (runQueue q db).nextId ∧
      ∀ r ∈ (runQueue q db).rows, r ∈ db.rows ∨ db.nextId ≤ r.id := by
  intro q db
  induction q, db using runQueue.induct with
  | case1 db =>
    simp only [runQueue]
    exact ⟨le_refl _, fun r hr => Or.inl hr⟩
  | case2 t rest db ih =>
    rw [runQueue]
    obtain ⟨hpc1, hpc2⟩ := processChildren_fresh t.parent_id t.path t.children db
    obtain ⟨h1, h2⟩ := ih
    refine ⟨le_trans hpc1 h1, fun r hr => ?_⟩
    rcases h2 r hr with h | h
    · rcases hpc2 r h with h' | h'
      · exact Or.inl h'
      · exact Or.inr h'
    · exact Or.inr (le_trans hpc1 h)

theorem runQueue_good (rootId : Int) :
    ∀ (q : List TaskM) (db : DbState),
      (∀ t ∈ q, GoodTask rootId db.rows t) →
      (∀ row ∈ db.rows, GoodRow rootId db.rows row) →
      ∀ row ∈ (runQueue q db).rows, GoodRow rootId (runQueue q db).rows row := by
  intro q db
  induction q, db using runQueue.induct with
  | case1 db =>
    intro ht hrow row hmem
    simp only [runQueue] at hmem ⊢
    rcases hrow row hmem with h | ⟨r', hr', h1, h2⟩
    · exact Or.inl h
    · exact Or.inr ⟨r', hr', h1, h2⟩
  | case2 t rest db ih =>
    intro ht hrow
    rw [runQueue]
    set db' := (processChildren t.parent_id t.path t.children db).1 with hdb'
    have hsub : ∀ r ∈ db.rows, r ∈ db'.rows := fun r hr =>
      processChildren_rows_sub t.parent_id t.path t.children db r hr
    refine ih ?_ ?_
    · intro t' ht'
      rcases List.mem_append.mp ht' with h | h
      · rcases ht t' (List.mem_cons_of_mem _ h) with hl | ⟨r', hr', h1, h2⟩
        · exact Or.inl hl
        · exact Or.inr ⟨r', hsub r' hr', h1, h2⟩
      · obtain ⟨r', hr', h1, h2⟩ := processChildren_tasks_good t.parent_id t.path
          t.children db t' h
        exact Or.inr ⟨r', hr', h1, h2⟩
    · intro row hmem
      rcases processChildren_rows_cases t.parent_id t.path t.children db row hmem with
        h | ⟨hpar, hdir⟩
      · rcases hrow row h with hl | ⟨r', hr', h1, h2⟩
        · exact Or.inl hl
        · exact Or.inr ⟨r', hsub r' hr', h1, h2⟩
      · rcases ht t (List.mem_cons_self _ _) with hl | ⟨r', hr', h1, h2⟩
        · exact Or.inl (hpar.trans hl)
        · refine Or.inr ⟨r', hsub r' hr', ?_, ?_⟩
          · rw [h1, hpar]
          · rw [hdir, h2]

/-- Claim C4: for a finite, symlink-free directory tree indexed with no
errors, the run persists exactly one row per file or directory reachable
below the root; the root itself is never inserted (every generated id is at
least the store's initial next id, which exceeds the root's pre-existing
id); and every row's parent is either the root's identifier or the generated
identifier of its containing directory (the row whose full path the row's
own path extends by its name). -/
theorem c4_row_count_and_parents (rootPath : String) (cs : List FsNode)
    (rootId initId : Int) (hroot : rootId < initId) :
    (indexRun rootPath cs rootId initId).rows.length = countList cs ∧
    (∀ row ∈ (indexRun rootPath cs rootId initId).rows, row.id ≠ rootId) ∧
    (∀ row ∈ (indexRun rootPath cs rootId initId).rows,
      row.parent = rootId ∨
        ∃ r' ∈ (indexRun rootPath cs rootId initId).rows,
          r'.id = row.parent ∧ row.dir = childPath r'.dir row.name) := by
  refine ⟨?_, ?_, ?_⟩
  · rw [indexRun, runQueue_rows_len]
    simp [initialDb, initialTask, queueCount]
  · intro row hrow
    obtain ⟨h1, h2⟩ := runQueue_fresh [initialTask rootPath cs rootId] (initialDb initId)
    rcases h2 row hrow with h | h
    · simp [initialDb] at h
    · intro heq
      simp only [initialDb] at h
      omega
  · intro row hrow
    have hg := runQueue_good rootId [initialTask rootPath cs rootId] (initialDb initId)
      (by intro t' ht'
          simp only [List.mem_singleton] at ht'
          subst ht'
          exact Or.inl rfl)
      (by intro r hr; simp [initialDb] at hr)
      row hrow
    rcases hg with h | ⟨r', hr', ha, hb⟩
    · exact Or.inl h
    · exact Or.inr ⟨r', hr', ha, hb⟩

/-- Witness for claim C4: a root containing one subdirectory `d` holding one
file `f`, root id 1, store ids starting at 2. -/
theorem c4_row_count_and_parents_witness :
    (1 : Int) < 2 ∧
    ((indexRun "/r" [FsNode.dir "d" [FsNode.file "f"]] 1 2).rows.length =
        countList [FsNode.dir "d" [FsNode.file "f"]] ∧
      (∀ row ∈ (indexRun "/r" [FsNode.dir "d" [FsNode.file "f"]] 1 2).rows,
        row.id ≠ 1) ∧
      (∀ row ∈ (indexRun "/r" [FsNode.dir "d" [FsNode.file "f"]] 1 2).rows,
        row.parent = 1 ∨
          ∃ r' ∈ (indexRun "/r" [FsNode.dir "d" [FsNode.file "f"]] 1 2).rows,
            r'.id = row.parent ∧ row.dir = childPath r'.dir row.name)) :=
  ⟨by decide,
    c4_row_count_and_parents "/r" [FsNode.dir "d" [FsNode.file "f"]] 1 2 (by decide)⟩

end Dfs
